import Mathlib

set_option maxRecDepth 100000

/-!
Verification development for the Postman-collection-to-markdown converter
(src/convert-postman-to-md.py). The Python functions are shallowly embedded
as executable Lean definitions over `String` and `List Char`; fallible
Python operations (operations that can raise) are embedded as
`Option`-valued functions. Machine strings are sequences of Unicode scalar
values, as in Python, with the caveat (noted where relevant) that Lean
`Char` cannot represent lone surrogate code points.
-/

namespace Pm2Md

/-! ### Character constants (written via code points to keep brace characters
out of string literals where possible) -/

def lbrace : Char := Char.ofNat 123
def rbrace : Char := Char.ofNat 125
def bslash : Char := '\\'
def dquoteC : Char := Char.ofNat 34
def apostC : Char := Char.ofNat 39

/-! ### Python `str.replace`

`replaceFuel pat repl fuel s` replaces non-overlapping occurrences of `pat`
in `s` left to right, exactly as Python `s.replace(pat, repl)` does for a
nonempty `pat`. The `fuel` argument makes the recursion structural; each
step consumes at least one character, so `fuel = s.length` suffices. -/

def replaceFuel (pat repl : List Char) : Nat → List Char → List Char
  | 0, s => s
  | _ + 1, [] => []
  | fuel + 1, c :: rest =>
    if pat ≠ [] ∧ pat.isPrefixOf (c :: rest) then
      repl ++ replaceFuel pat repl fuel (List.drop (pat.length - 1) rest)
    else
      c :: replaceFuel pat repl fuel rest

/-- Python `s.replace(pat, repl)`. All call sites in the program use a
nonempty `pat`; the empty-pattern case (where Python would interleave
`repl` everywhere) is mapped to the identity and never exercised. -/
def pyReplace (s pat repl : String) : String :=
  if pat.data.isEmpty then s
  else String.mk (replaceFuel pat.data repl.data s.data.length s.data)

/-- Substring test on character lists: Python `pat in s`. -/
def hasSub : List Char → List Char → Bool
  | [], pat => pat.isEmpty
  | c :: rest, pat => pat.isPrefixOf (c :: rest) || hasSub rest pat

/-! ### Python `unicode_escape` decoding

`clean` first does `s.encode(latin1)`, which raises when any character is
above U+00FF, then decodes the resulting bytes with the `unicode_escape`
codec. The decoder below follows that codec: single-character escapes,
line continuation after a backslash, octal escapes of up to three digits,
`\xHH`, `\uHHHH` and `\UHHHHHHHH` with mandatory hex-digit counts, a kept
backslash for unrecognized escapes, and an error for a trailing backslash.
Two codec behaviours fall outside the embedding and are mapped to `none`:
`\N{NAME}` database lookups, and `\u`/`\U` escapes denoting surrogate code
points (Python builds a lone-surrogate string there, which Lean `Char`
cannot represent). Neither is reachable from the claims checked here. -/

def hexVal? (c : Char) : Option Nat :=
  if '0' ≤ c ∧ c ≤ '9' then some (c.toNat - 48)
  else if 'a' ≤ c ∧ c ≤ 'f' then some (c.toNat - 87)
  else if 'A' ≤ c ∧ c ≤ 'F' then some (c.toNat - 55)
  else none

def takeHex : Nat → List Char → Option (Nat × List Char)
  | 0, s => some (0, s)
  | _ + 1, [] => none
  | n + 1, c :: rest => do
    let v ← hexVal? c
    let p ← takeHex n rest
    pure (v * 16 ^ n + p.1, p.2)

def isOctDigit (c : Char) : Bool := '0' ≤ c && c ≤ '7'

/-- Octal escape continuation: at most two further octal digits after the
first one. -/
def takeOct2 (v0 : Nat) : List Char → Nat × List Char
  | c :: d :: rest =>
    if isOctDigit c then
      if isOctDigit d then (v0 * 64 + (c.toNat - 48) * 8 + (d.toNat - 48), rest)
      else (v0 * 8 + (c.toNat - 48), d :: rest)
    else (v0, c :: d :: rest)
  | [c] => if isOctDigit c then (v0 * 8 + (c.toNat - 48), []) else (v0, [c])
  | [] => (v0, [])

def isSurrogateCode (v : Nat) : Bool := 55296 ≤ v && v ≤ 57343

def decodeEscFuel : Nat → List Char → Option (List Char)
  | 0, [] => some []
  | 0, _ :: _ => none
  | _ + 1, [] => some []
  | fuel + 1, c :: rest =>
    if c ≠ bslash then (decodeEscFuel fuel rest).map (fun d => c :: d)
    else
      match rest with
      | [] => none
      | e :: r2 =>
        if e = '\n' then decodeEscFuel fuel r2
        else if e = bslash then (decodeEscFuel fuel r2).map (fun d => bslash :: d)
        else if e = apostC then (decodeEscFuel fuel r2).map (fun d => apostC :: d)
        else if e = dquoteC then (decodeEscFuel fuel r2).map (fun d => dquoteC :: d)
        else if e = 'a' then (decodeEscFuel fuel r2).map (fun d => Char.ofNat 7 :: d)
        else if e = 'b' then (decodeEscFuel fuel r2).map (fun d => Char.ofNat 8 :: d)
        else if e = 'f' then (decodeEscFuel fuel r2).map (fun d => Char.ofNat 12 :: d)
        else if e = 'n' then (decodeEscFuel fuel r2).map (fun d => '\n' :: d)
        else if e = 'r' then (decodeEscFuel fuel r2).map (fun d => '\r' :: d)
        else if e = 't' then (decodeEscFuel fuel r2).map (fun d => '\t' :: d)
        else if e = 'v' then (decodeEscFuel fuel r2).map (fun d => Char.ofNat 11 :: d)
        else if isOctDigit e then
          let p := takeOct2 (e.toNat - 48) r2
          (decodeEscFuel fuel p.2).map (fun d => Char.ofNat p.1 :: d)
        else if e = 'x' then
          match takeHex 2 r2 with
          | none => none
          | some (v, r3) => (decodeEscFuel fuel r3).map (fun d => Char.ofNat v :: d)
        else if e = 'u' then
          match takeHex 4 r2 with
          | none => none
          | some (v, r3) =>
            if isSurrogateCode v then none
            else (decodeEscFuel fuel r3).map (fun d => Char.ofNat v :: d)
        else if e = 'U' then
          match takeHex 8 r2 with
          | none => none
          | some (v, r3) =>
            if isSurrogateCode v || decide (v > 1114111) then none
            else (decodeEscFuel fuel r3).map (fun d => Char.ofNat v :: d)
        else if e = 'N' then none
        else (decodeEscFuel fuel r2).map (fun d => bslash :: e :: d)

def pyUnicodeEscape (s : List Char) : Option (List Char) :=
  decodeEscFuel s.length s

/-- Python `s[1:-1]` guarded by `s.startswith(q) and s.endswith(q)`:
strips one leading and one trailing double quote when both are present
(for the one-character string consisting of a double quote, both tests
succeed and the result is empty, matching Python slicing). -/
def pyStripQuotes (s : String) : String :=
  if s.data.head? = some dquoteC ∧ s.data.getLast? = some dquoteC then
    String.mk (s.data.dropLast.drop 1)
  else s

/-- Embedding of `clean` (lines 18 to 24): latin-1 encode (raising, i.e.
`none`, when a character is above U+00FF), `unicode_escape` decode, the
placeholder rewrites, removal of literal CR-LF pairs, and the quote
strip. -/
def clean (s : String) : Option String :=
  if s.data.all (fun c => c.toNat ≤ 255) then
    match pyUnicodeEscape s.data with
    | none => none
    | some d =>
      let r1 := pyReplace (String.mk d) "\x7b\x7b" "$"
      let r2 := pyReplace r1 "\x7d\x7d" ""
      let r3 := pyReplace r2 "\r\n" ""
      some (pyStripQuotes r3)
  else none

/-- Embedding of `escape_markup` (lines 31 to 32): prefix a backslash
before every brace or square bracket. -/
def escape_markup (value : String) : String :=
  String.mk (value.data.flatMap (fun c =>
    if c = lbrace ∨ c = rbrace ∨ c = '[' ∨ c = ']' then [bslash, c] else [c]))

/-! ### URL encoding -/

/-- Python regex `\s` character class for `str` patterns: ASCII whitespace
plus the Unicode whitespace code points. -/
def isPySpace (c : Char) : Bool :=
  c = ' ' || c = '\t' || c = '\n' || c = '\r' ||
  c.toNat = 11 || c.toNat = 12 ||
  c.toNat = 28 || c.toNat = 29 || c.toNat = 30 || c.toNat = 31 ||
  c.toNat = 133 || c.toNat = 160 || c.toNat = 5760 ||
  (8192 ≤ c.toNat && c.toNat ≤ 8202) ||
  c.toNat = 8232 || c.toNat = 8233 || c.toNat = 8239 || c.toNat = 8287 ||
  c.toNat = 12288

/-- Collapses a run of adjacent spaces to a single space. -/
def squeezeSpaces : List Char → List Char
  | [] => []
  | [c] => [c]
  | a :: b :: rest =>
    if a = ' ' ∧ b = ' ' then squeezeSpaces (b :: rest)
    else a :: squeezeSpaces (b :: rest)

/-- Embedding of `re.sub(r"\s+", " ", url)`: every maximal whitespace run
becomes a single space. Implemented as mapping each whitespace character
to a space and then collapsing adjacent spaces, which computes the same
string. -/
def collapseWs (s : String) : String :=
  String.mk (squeezeSpaces (s.data.map (fun c => if isPySpace c then ' ' else c)))

/-- Embedding of `encode_full_url` (lines 35 to 42), with the source
replacement chain applied in the same order. -/
def encode_full_url (url : String) : String :=
  let s0 := collapseWs url
  let s1 := pyReplace s0 "\x7b\x7b" "$"
  let s2 := pyReplace s1 "\x7d\x7d" ""
  let s3 := pyReplace s2 "%" "%25"
  let s4 := pyReplace s3 (String.mk [apostC]) "%27"
  let s5 := pyReplace s4 "\x7b" "%7B"
  let s6 := pyReplace s5 "\x7d" "%7D"
  let s7 := pyReplace s6 "\"" "%22"
  let s8 := pyReplace s7 " " "%20"
  let s9 := pyReplace s8 "[" "%5B"
  pyReplace s9 "]" "%5D"

/-- Embedding of the file-name sanitization in `gen_resource_section`
(lines 195 to 197): delete `/`, replace each other listed character with
a dash, in the source order. -/
def safeName (name : String) : String :=
  let s1 := pyReplace name "/" ""
  let s2 := pyReplace s1 "\\" "-"
  let s3 := pyReplace s2 ":" "-"
  let s4 := pyReplace s3 "*" "-"
  let s5 := pyReplace s4 "?" "-"
  let s6 := pyReplace s5 "\"" "-"
  let s7 := pyReplace s6 "<" "-"
  let s8 := pyReplace s7 ">" "-"
  pyReplace s8 "|" "-"

/-! ### JSON model

The program leans on the Python `json` module: `json.loads` to parse and
`json.dumps` (with and without `indent=2`, always with the default
`ensure_ascii=True`) to serialize. The model covers the full default
`json.loads` value domain: objects (with duplicate keys collapsed to the
last value at the first position, as a Python dict does), arrays, strings
(as code-point sequences, so that lone surrogates from unpaired `\uXXXX`
escapes are representable), arbitrary-precision integers, floats (IEEE
754 binary64, obtained by exact round-to-nearest-even of the decimal
literal and re-serialized with the shortest round-tripping decimal form,
as Python float repr does), and the Python extensions NaN, Infinity and
-Infinity. Environment-dependent CPython limits (the recursion limit on
deeply nested documents and the integer-string conversion cap of recent
versions) are not modelled. -/

/-- JSON values. A float is a signed binary64 stored exactly as
sign, integer significand and binary exponent (value = significand times
2 to the exponent); zero is significand 0. Strings and object keys are
code-point sequences (0 to 0x10FFFF, surrogates included). -/
inductive JVal : Type where
  | jnull : JVal
  | jbool : Bool → JVal
  | jnum : Int → JVal
  | jflt : Bool → Nat → Int → JVal
  | jinf : Bool → JVal
  | jnan : JVal
  | jstr : List Nat → JVal
  | jarr : List JVal → JVal
  | jobj : List (List Nat × JVal) → JVal
  deriving Repr

def strToCodes (s : String) : List Nat := s.data.map Char.toNat

/-! #### Serialization, Python `json.dumps` -/

def hexDigit (n : Nat) : Char :=
  if n < 10 then Char.ofNat (48 + n) else Char.ofNat (87 + n)

def hex4 (n : Nat) : String :=
  String.mk [hexDigit (n / 4096 % 16), hexDigit (n / 256 % 16),
             hexDigit (n / 16 % 16), hexDigit (n % 16)]

/-- Python `json` string escaping with `ensure_ascii=True`: the short
escapes, printable ASCII kept literal, and every other code point as
`\uXXXX` (surrogate pairs for astral code points, the bare escape for a
lone surrogate). -/
def escJCode (cp : Nat) : String :=
  if cp = 34 then "\\\""
  else if cp = 92 then "\\\\"
  else if cp = 10 then "\\n"
  else if cp = 13 then "\\r"
  else if cp = 9 then "\\t"
  else if cp = 8 then "\\b"
  else if cp = 12 then "\\f"
  else if 32 ≤ cp ∧ cp ≤ 126 then String.mk [Char.ofNat cp]
  else if cp < 65536 then "\\u" ++ hex4 cp
  else
    let v := cp - 65536
    "\\u" ++ hex4 (55296 + v / 1024) ++ "\\u" ++ hex4 (56320 + v % 1024)

def encodeJStr (cps : List Nat) : String :=
  "\"" ++ String.join (cps.map escJCode) ++ "\""

/-! #### Python float repr: shortest round-tripping decimal

`json.dumps` renders a float with `repr`, the shortest decimal string
that parses back to the same binary64 (CPython dtoa shortest mode). The
Steele-White style digit generation below works on exact integers: the
value and its rounding interval are kept as common-denominator fractions,
scaled so the quarter-ulp boundary of a power-of-two significand stays
integral; boundaries are inclusive exactly when the significand is even
(round-half-even parsing maps a boundary decimal back to the value). -/

def bitLenSmallF : Nat → Nat → Nat
  | 0, _ => 0
  | fuel + 1, n => if n = 0 then 0 else bitLenSmallF fuel (n / 2) + 1

def bitLenChunkF : Nat → Nat → Nat
  | 0, _ => 0
  | fuel + 1, n =>
    if n < 18446744073709551616 then bitLenSmallF 64 n
    else bitLenChunkF fuel (n / 18446744073709551616) + 64

/-- Number of binary digits of `n` (0 for 0), computed in 64-bit chunks
to keep the evaluation depth small. -/
def bitLen (n : Nat) : Nat := bitLenChunkF n n

/-- Power by binary exponentiation with explicit fuel (any exponent below
2 to the 64 is covered); the builtin power notation is kept for small
constant exponents only, so that kernel evaluation of the statements
below never meets a large literal exponent. -/
def powBinF : Nat → Nat → Nat → Nat
  | 0, _, _ => 1
  | fuel + 1, b, n =>
    if n = 0 then 1
    else
      let h := powBinF fuel (b * b) (n / 2)
      if n % 2 = 1 then b * h else h

def powF (b n : Nat) : Nat := powBinF 64 b n

/-- Scaling loop, downward: multiply the value into range so that the
first generated digit is significant. -/
def scaleDownF (S : Nat) (incl : Bool) :
    Nat → Nat → Nat → Nat → Int → Nat × Nat × Nat × Int
  | 0, R, mh, ml, k => (R, mh, ml, k)
  | fuel + 1, R, mh, ml, k =>
    let go := if incl then decide ((R + mh) * 10 < S) else decide ((R + mh) * 10 ≤ S)
    if go then scaleDownF S incl fuel (R * 10) (mh * 10) (ml * 10) (k - 1)
    else (R, mh, ml, k)

/-- Scaling loop, upward: grow the denominator until even the high
boundary is below one. -/
def scaleUpF (R mh : Nat) (incl : Bool) : Nat → Nat → Int → Nat × Int
  | 0, S, k => (S, k)
  | fuel + 1, S, k =>
    let go := if incl then decide (R + mh ≥ S) else decide (R + mh > S)
    if go then scaleUpF R mh incl fuel (S * 10) (k + 1)
    else (S, k)

/-- Digit generation: emit decimal digits of R/S until the remainder is
within the low boundary or the rest of the interval is within the high
boundary, then pick the closer final digit (even digit on an exact tie,
as CPython dtoa does). The final cell can be 10 when the last digit
rounds up; `fixTen` normalizes it. -/
def genDigitsF (S : Nat) (incl : Bool) : Nat → Nat → Nat → Nat → List Nat → List Nat
  | 0, _, _, _, acc => acc.reverse
  | fuel + 1, R, mh, ml, acc =>
    let R1 := R * 10
    let mh1 := mh * 10
    let ml1 := ml * 10
    let d := R1 / S
    let r := R1 % S
    let low := if incl then decide (r ≤ ml1) else decide (r < ml1)
    let high := if incl then decide (r + mh1 ≥ S) else decide (r + mh1 > S)
    if low && high then
      let dfin :=
        if 2 * r > S then d + 1
        else if 2 * r < S then d
        else if d % 2 = 1 then d + 1 else d
      (dfin :: acc).reverse
    else if low then (d :: acc).reverse
    else if high then ((d + 1) :: acc).reverse
    else genDigitsF S incl fuel r mh1 ml1 (d :: acc)

/-- Adds one to the last digit of a digit list, with carry; the Bool
reports a carry out of the front. -/
def incLastF : List Nat → List Nat × Bool
  | [] => ([], true)
  | [d] => if d + 1 ≤ 9 then ([d + 1], false) else ([0], true)
  | d :: rest =>
    match incLastF rest with
    | (rest2, false) => (d :: rest2, false)
    | (rest2, true) => if d + 1 ≤ 9 then ((d + 1) :: rest2, false) else (0 :: rest2, true)

/-- Resolves a trailing pseudo-digit 10 produced by a final round-up,
returning the fixed digits and the decimal-exponent adjustment. -/
def fixTen (ds : List Nat) : List Nat × Int :=
  if ds.getLast? = some 10 then
    match incLastF ds.dropLast with
    | (ds2, false) => (ds2 ++ [0], 0)
    | (ds2, true) => (1 :: ds2 ++ [0], 1)
  else (ds, 0)

def dropTrailingZeros (ds : List Nat) : List Nat :=
  (ds.reverse.dropWhile (fun d => d = 0)).reverse

def natDigitsStr (ds : List Nat) : String :=
  String.mk (ds.map (fun d => Char.ofNat (48 + d)))

def zeroDigits (n : Nat) : String := String.mk (List.replicate n '0')

/-- Exponent field of Python float repr: at least two digits. -/
def expDigits (n : Nat) : String :=
  if n < 10 then "0" ++ natDigitsStr [n]
  else if n < 100 then natDigitsStr [n / 10, n % 10]
  else natDigitsStr [n / 100, n / 10 % 10, n % 10]

/-- Python float repr formatting from the shortest digits d1..dn and the
exponent x of the leading digit: fixed notation for -4 ≤ x < 16 (with a
trailing .0 on integral values), scientific notation with a signed
two-digit-minimum exponent otherwise. -/
def formatRepr (neg : Bool) (ds : List Nat) (x : Int) : String :=
  let sgn := if neg then "-" else ""
  let n := ds.length
  if -4 ≤ x ∧ x < 16 then
    if x ≥ 0 then
      let xp := x.toNat
      if n ≤ xp + 1 then sgn ++ natDigitsStr ds ++ zeroDigits (xp + 1 - n) ++ ".0"
      else sgn ++ natDigitsStr (ds.take (xp + 1)) ++ "." ++ natDigitsStr (ds.drop (xp + 1))
    else sgn ++ "0." ++ zeroDigits ((-x).toNat - 1) ++ natDigitsStr ds
  else
    let head := natDigitsStr (ds.take 1)
    let tail := if n ≥ 2 then "." ++ natDigitsStr (ds.drop 1) else ""
    let es := if x ≥ 0 then "+" ++ expDigits x.toNat else "-" ++ expDigits (-x).toNat
    sgn ++ head ++ tail ++ "e" ++ es

/-- Python `repr` of the binary64 with the given sign, significand and
binary exponent. The scale-loop fuels cover the full double range (about
340 decades); digit generation needs at most 17 digits. -/
def reprF64 (neg : Bool) (s : Nat) (p : Int) : String :=
  if s = 0 then (if neg then "-0.0" else "0.0")
  else
    let incl := s % 2 = 0
    let R0 := if p ≥ 0 then s * powF 2 (p.toNat + 2) else 4 * s
    let S0 := if p ≥ 0 then 4 else powF 2 ((-p).toNat + 2)
    let mh0 := if p ≥ 0 then powF 2 (p.toNat + 1) else 2
    let ml0 := if s = 2 ^ 52 ∧ p ≠ -1074 then mh0 / 2 else mh0
    match scaleDownF S0 incl 1200 R0 mh0 ml0 0 with
    | (R1, mh1, ml1, k1) =>
      match scaleUpF R1 mh1 incl 1200 S0 k1 with
      | (S2, k2) =>
        let ds0 := genDigitsF S2 incl 25 R1 mh1 ml1 []
        match fixTen ds0 with
        | (ds1, kadj) =>
          let ds := dropTrailingZeros ds1
          formatRepr neg ds (k2 + kadj - 1)

/-! #### Decimal literal to binary64, Python `float(str)` -/

/-- Exact conversion of the decimal `(-1)^neg * m * 10^e10` (with `m`
written with `ndigits` digits) to the nearest binary64 with ties to even,
as CPython float parsing does. Certain overflow (at least 1e310) gives
the infinity, certain underflow (below 1e-324, under half the smallest
subnormal) the signed zero; everything else is rounded exactly with big
integers. -/
def toF64 (neg : Bool) (m : Nat) (e10 : Int) (ndigits : Nat) : JVal :=
  if m = 0 then JVal.jflt neg 0 0
  else if e10 ≥ 310 then JVal.jinf neg
  else if e10 + ndigits ≤ -324 then JVal.jflt neg 0 0
  else
    let N := if e10 ≥ 0 then m * powF 10 e10.toNat else m
    let D := if e10 ≥ 0 then 1 else powF 10 (-e10).toNat
    let e0 : Int := (bitLen N : Int) - (bitLen D : Int) - 1
    let ge : Bool :=
      if e0 + 1 ≥ 0 then decide (N ≥ D * powF 2 (e0 + 1).toNat)
      else decide (N * powF 2 (-(e0 + 1)).toNat ≥ D)
    let E : Int := if ge then e0 + 1 else e0
    let p : Int := max (E - 52) (-1074)
    let num := if p ≥ 0 then N else N * powF 2 (-p).toNat
    let den := if p ≥ 0 then D * powF 2 p.toNat else D
    let q := num / den
    let r := num % den
    let sr := if 2 * r > den ∨ (2 * r = den ∧ q % 2 = 1) then q + 1 else q
    let s2 := if sr = 2 ^ 53 then 2 ^ 52 else sr
    let p2 := if sr = 2 ^ 53 then p + 1 else p
    if p2 > 971 then JVal.jinf neg
    else JVal.jflt neg s2 p2

def spaces (n : Nat) : String := String.mk (List.replicate n ' ')

/-- Newline-plus-indent emitted after an opening bracket and after each
comma when an indent is given; nothing in compact mode. -/
def dumpPad (ind : Option Nat) (level : Nat) : String :=
  match ind with
  | none => ""
  | some n => "\n" ++ spaces (n * level)

/-- Item separator: a bare `, ` in compact mode, a comma followed by the
newline-indent otherwise (the Python default separators). -/
def dumpSep (ind : Option Nat) (level : Nat) : String :=
  match ind with
  | none => ", "
  | some n => ",\n" ++ spaces (n * level)

/-- Serializer core, structurally recursive on an explicit fuel that
bounds the nesting depth. Floats render through the shortest repr; the
non-finite values keep their Python token spellings. -/
def dumpsF : Nat → Option Nat → Nat → JVal → String
  | _, _, _, .jnull => "null"
  | _, _, _, .jbool b => if b then "true" else "false"
  | _, _, _, .jnum n => toString n
  | _, _, _, .jflt neg s p => reprF64 neg s p
  | _, _, _, .jinf neg => if neg then "-Infinity" else "Infinity"
  | _, _, _, .jnan => "NaN"
  | _, _, _, .jstr s => encodeJStr s
  | 0, _, _, _ => ""
  | _ + 1, _, _, .jarr [] => "[]"
  | fuel + 1, ind, level, .jarr (x :: xs) =>
    "[" ++ dumpPad ind (level + 1) ++
      String.intercalate (dumpSep ind (level + 1))
        ((x :: xs).map (dumpsF fuel ind (level + 1))) ++
      dumpPad ind level ++ "]"
  | _ + 1, _, _, .jobj [] => "\x7b\x7d"
  | fuel + 1, ind, level, .jobj (f :: fs) =>
    "\x7b" ++ dumpPad ind (level + 1) ++
      String.intercalate (dumpSep ind (level + 1))
        ((f :: fs).map (fun kv =>
          encodeJStr kv.1 ++ ": " ++ dumpsF fuel ind (level + 1) kv.2)) ++
      dumpPad ind level ++ "\x7d"

/-- Python `json.dumps(v)` with the given `indent` (or compact, the
default, for `none`). The fuel only needs to exceed the nesting depth of
`v`; every call site passes a bound derived from the text the value was
parsed from (one character per nesting level), or `1` for leaf values. -/
def dumps (fuel : Nat) (ind : Option Nat) (v : JVal) : String :=
  dumpsF fuel ind 0 v

/-! #### Parsing, Python `json.loads` -/

def isJWs (c : Char) : Bool := c = ' ' || c = '\t' || c = '\n' || c = '\r'

def skipWs (s : List Char) : List Char := s.dropWhile isJWs

/-- JSON string body parser, starting after the opening quote; consumes
the closing quote and yields the code points. Strict mode as in
`json.loads`: raw control characters and unknown escapes are errors. A
`\uXXXX` high-surrogate escape followed by a low-surrogate escape is
combined into one astral code point; an unpaired surrogate escape keeps
its lone surrogate code point, as Python does. -/
def parseJStrF : Nat → List Char → Option (List Nat × List Char)
  | 0, _ => none
  | _ + 1, [] => none
  | fuel + 1, c :: rest =>
    if c = dquoteC then some ([], rest)
    else if c = bslash then
      match rest with
      | [] => none
      | e :: r2 =>
        if e = dquoteC then (parseJStrF fuel r2).map (fun p => (34 :: p.1, p.2))
        else if e = bslash then (parseJStrF fuel r2).map (fun p => (92 :: p.1, p.2))
        else if e = '/' then (parseJStrF fuel r2).map (fun p => (47 :: p.1, p.2))
        else if e = 'b' then (parseJStrF fuel r2).map (fun p => (8 :: p.1, p.2))
        else if e = 'f' then (parseJStrF fuel r2).map (fun p => (12 :: p.1, p.2))
        else if e = 'n' then (parseJStrF fuel r2).map (fun p => (10 :: p.1, p.2))
        else if e = 'r' then (parseJStrF fuel r2).map (fun p => (13 :: p.1, p.2))
        else if e = 't' then (parseJStrF fuel r2).map (fun p => (9 :: p.1, p.2))
        else if e = 'u' then
          match takeHex 4 r2 with
          | none => none
          | some (v, r3) =>
            if 55296 ≤ v ∧ v ≤ 56319 then
              match r3 with
              | u1 :: u2 :: r4 =>
                if u1 = bslash ∧ u2 = 'u' then
                  match takeHex 4 r4 with
                  | none => none
                  | some (w, r5) =>
                    if 56320 ≤ w ∧ w ≤ 57343 then
                      (parseJStrF fuel r5).map (fun p =>
                        ((65536 + (v - 55296) * 1024 + (w - 56320)) :: p.1, p.2))
                    else (parseJStrF fuel r3).map (fun p => (v :: p.1, p.2))
                else (parseJStrF fuel r3).map (fun p => (v :: p.1, p.2))
              | _ => (parseJStrF fuel r3).map (fun p => (v :: p.1, p.2))
            else (parseJStrF fuel r3).map (fun p => (v :: p.1, p.2))
        else none
    else if c.toNat < 32 then none
    else (parseJStrF fuel rest).map (fun p => (c.toNat :: p.1, p.2))

def natOfDigits (ds : List Char) : Nat :=
  ds.foldl (fun a c => a * 10 + (c.toNat - 48)) 0

def takeDigits (s : List Char) : List Char × List Char :=
  (s.takeWhile Char.isDigit, s.dropWhile Char.isDigit)

/-- Optional fraction part: a dot followed by at least one digit;
otherwise nothing is consumed (the regex group backtracks, so `5.` is the
number `5` followed by a stray dot). -/
def parseFrac : List Char → List Char × List Char
  | '.' :: d :: fr =>
    if d.isDigit then takeDigits (d :: fr) else ([], '.' :: d :: fr)
  | s => ([], s)

/-- Optional exponent part: `e` or `E`, an optional sign, at least one
digit; otherwise nothing is consumed. Returns presence, negativity, the
digits and the rest. -/
def parseExpPart : List Char → Bool × Bool × List Char × List Char
  | [] => (false, false, [], [])
  | e :: er =>
    if e = 'e' ∨ e = 'E' then
      match er with
      | [] => (false, false, [], e :: er)
      | sgn :: er2 =>
        if sgn = '+' ∨ sgn = '-' then
          match er2 with
          | [] => (false, false, [], e :: er)
          | d :: _ =>
            if d.isDigit then
              let t := takeDigits er2
              (true, sgn = '-', t.1, t.2)
            else (false, false, [], e :: er)
        else if sgn.isDigit then
          let t := takeDigits er
          (true, false, t.1, t.2)
        else (false, false, [], e :: er)
    else (false, false, [], e :: er)

/-- Number literal after an optional already-consumed minus sign,
following the Python json regex `(0|[1-9]\d*)(\.\d+)?([eE][+-]?\d+)?`: an
integer literal yields a Python int, a fraction or exponent part yields
the exactly rounded binary64. -/
def parseNumber (neg : Bool) (s : List Char) : Option (JVal × List Char) :=
  match s with
  | [] => none
  | c :: rest =>
    if ¬ c.isDigit then none
    else
      let ip := if c = '0' then [c] else ((c :: rest).takeWhile Char.isDigit)
      let r1 := if c = '0' then rest else ((c :: rest).dropWhile Char.isDigit)
      match parseFrac r1 with
      | (fp, r2) =>
        match parseExpPart r2 with
        | (hasExp, eneg, ep, r3) =>
          if fp.isEmpty ∧ ¬ hasExp then
            let n : Int := natOfDigits ip
            some (JVal.jnum (if neg then -n else n), r1)
          else
            let m := natOfDigits (ip ++ fp)
            let ev : Int := if hasExp then (if eneg then -(natOfDigits ep : Int) else (natOfDigits ep : Int)) else 0
            let e10 : Int := ev - fp.length
            let r := if hasExp then r3 else r2
            some (toF64 neg m e10 (ip.length + fp.length), r)

/-- Parsing mode: a single value, the elements of a nonempty array after
the opening bracket, or the fields of a nonempty object after the opening
brace. -/
inductive PM : Type where
  | pv : PM
  | parr : PM
  | pobj : PM

inductive PRes : Type where
  | v : JVal → PRes
  | vs : List JVal → PRes
  | fs : List (List Nat × JVal) → PRes

/-- Python dict construction from parsed key-value pairs: a repeated key
keeps its first position but takes the last value. -/
def upsertField (acc : List (List Nat × JVal)) (kv : List Nat × JVal) :
    List (List Nat × JVal) :=
  if acc.any (fun f => f.1 == kv.1) then
    acc.map (fun f => if f.1 == kv.1 then (f.1, kv.2) else f)
  else acc ++ [kv]

def dedupFields (fs : List (List Nat × JVal)) : List (List Nat × JVal) :=
  fs.foldl upsertField []

/-- Recursive-descent JSON parser, structurally recursive on fuel; every
recursive call consumes fuel, and parsing consumes at least one character
per two fuel units, so `2 * length + 2` fuel suffices. Accepts the
Python extensions NaN, Infinity and -Infinity. -/
def parseF : Nat → PM → List Char → Option (PRes × List Char)
  | 0, _, _ => none
  | fuel + 1, .pv, s =>
    match skipWs s with
    | [] => none
    | c :: rest =>
      if c = dquoteC then
        (parseJStrF rest.length rest).map (fun p => (PRes.v (JVal.jstr p.1), p.2))
      else if c = lbrace then
        match skipWs rest with
        | [] => none
        | c2 :: r2 =>
          if c2 = rbrace then some (PRes.v (JVal.jobj []), r2)
          else
            match parseF fuel .pobj (c2 :: r2) with
            | some (PRes.fs l, r) => some (PRes.v (JVal.jobj (dedupFields l)), r)
            | _ => none
      else if c = '[' then
        match skipWs rest with
        | [] => none
        | c2 :: r2 =>
          if c2 = ']' then some (PRes.v (JVal.jarr []), r2)
          else
            match parseF fuel .parr (c2 :: r2) with
            | some (PRes.vs l, r) => some (PRes.v (JVal.jarr l), r)
            | _ => none
      else if c = 't' then
        if ['r', 'u', 'e'].isPrefixOf rest then some (PRes.v (JVal.jbool true), rest.drop 3)
        else none
      else if c = 'f' then
        if ['a', 'l', 's', 'e'].isPrefixOf rest then some (PRes.v (JVal.jbool false), rest.drop 4)
        else none
      else if c = 'n' then
        if ['u', 'l', 'l'].isPrefixOf rest then some (PRes.v JVal.jnull, rest.drop 3)
        else none
      else if c = 'N' then
        if ['a', 'N'].isPrefixOf rest then some (PRes.v JVal.jnan, rest.drop 2)
        else none
      else if c = 'I' then
        if ['n', 'f', 'i', 'n', 'i', 't', 'y'].isPrefixOf rest then
          some (PRes.v (JVal.jinf false), rest.drop 7)
        else none
      else if c = '-' then
        if ['I', 'n', 'f', 'i', 'n', 'i', 't', 'y'].isPrefixOf rest then
          some (PRes.v (JVal.jinf true), rest.drop 8)
        else
          match parseNumber true rest with
          | some (v, r) => some (PRes.v v, r)
          | none => none
      else if c.isDigit then
        match parseNumber false (c :: rest) with
        | some (v, r) => some (PRes.v v, r)
        | none => none
      else none
  | fuel + 1, .parr, s =>
    match parseF fuel .pv s with
    | some (PRes.v v, r) =>
      (match skipWs r with
       | [] => none
       | c :: r2 =>
         if c = ',' then
           match parseF fuel .parr r2 with
           | some (PRes.vs l, r3) => some (PRes.vs (v :: l), r3)
           | _ => none
         else if c = ']' then some (PRes.vs [v], r2)
         else none)
    | _ => none
  | fuel + 1, .pobj, s =>
    match skipWs s with
    | [] => none
    | c :: rest =>
      if c = dquoteC then
        match parseJStrF rest.length rest with
        | none => none
        | some (ks, r) =>
          (match skipWs r with
           | [] => none
           | c2 :: r2 =>
             if c2 = ':' then
               match parseF fuel .pv r2 with
               | some (PRes.v v, r3) =>
                 (match skipWs r3 with
                  | [] => none
                  | c3 :: r4 =>
                    if c3 = ',' then
                      match parseF fuel .pobj r4 with
                      | some (PRes.fs l, r5) => some (PRes.fs ((ks, v) :: l), r5)
                      | _ => none
                    else if c3 = rbrace then some (PRes.fs [(ks, v)], r4)
                    else none)
               | _ => none
             else none)
      else none

/-- Python `json.loads`: parse one value, allow trailing whitespace
only. -/
def loads (s : String) : Option JVal :=
  match parseF (2 * s.data.length + 2) .pv s.data with
  | some (PRes.v v, r) => if skipWs r = [] then some v else none
  | _ => none

/-- Embedding of `format_raw_data` (lines 45 to 49): try the JSON parse;
on success re-serialize with two-space indent under the `json` tag, on
failure return the input unchanged under the `xml` tag. -/
def format_raw_data (data : String) : String × String :=
  match loads data with
  | some v => ("json", dumps (data.data.length + 1) (some 2) v)
  | none => ("xml", data)

/-! ### Data model

Entities as decoded from the input collection document. Optional fields
of the source document are `Option`-valued; for the response body the
outer `Option` is presence of the `body` field and the inner one is a
JSON `null` value. The request `body` field being absent and being `null`
are merged into `none`, since the program treats them identically (line
118). -/

structure Header where
  key : String
  value : String
  description : Option String
  deriving Repr, DecidableEq

structure QueryParam where
  key : String
  value : String
  description : Option String
  deriving Repr, DecidableEq

structure Url where
  raw : String
  path : Option (List String)
  query : Option (List QueryParam)
  deriving Repr, DecidableEq

structure Body where
  raw : Option String
  deriving Repr, DecidableEq

structure Request where
  method : String
  url : Url
  header : List Header
  description : Option String
  body : Option Body
  deriving Repr, DecidableEq

structure Response where
  code : Option Int
  status : Option String
  body : Option (Option String)
  deriving Repr, DecidableEq

structure Item where
  name : String
  request : Request
  response : List Response
  deriving Repr, DecidableEq

structure Variable where
  key : String
  value : Option String
  deriving Repr, DecidableEq

/-! ### Ordinal string comparison

Python compares strings by code point, lexicographically. The comparator
below implements exactly that on the character lists underlying `String`
(the builtin `String` order of Lean agrees with it, but its iterator
implementation does not reduce in the kernel, so a direct recursive
comparator is used instead). -/

def charsLt : List Char → List Char → Bool
  | [], [] => false
  | [], _ :: _ => true
  | _ :: _, [] => false
  | a :: as, b :: bs =>
    if a < b then true
    else if a = b then charsLt as bs
    else false

/-- Strict ordinal order on strings. -/
def strLt (a b : String) : Bool := charsLt a.data b.data

/-- Reflexive ordinal order on strings. -/
def strLe (a b : String) : Bool := charsLt a.data b.data || a.data == b.data

theorem charsLt_connex : ∀ a b : List Char,
    charsLt a b = true ∨ charsLt b a = true ∨ a = b := by
  intro a
  induction a with
  | nil =>
    intro b
    cases b with
    | nil => right; right; rfl
    | cons y ys => left; rfl
  | cons x xs ih =>
    intro b
    cases b with
    | nil => right; left; rfl
    | cons y ys =>
      rcases lt_trichotomy x y with h | h | h
      · left; simp [charsLt, h]
      · subst h
        rcases ih ys with h2 | h2 | h2
        · left; simp [charsLt, h2]
        · right; left; simp [charsLt, h2]
        · right; right; rw [h2]
      · right; left; simp [charsLt, h, not_lt_of_gt h]

theorem charsLt_trans : ∀ a b c : List Char,
    charsLt a b = true → charsLt b c = true → charsLt a c = true := by
  intro a
  induction a with
  | nil =>
    intro b c hab hbc
    cases b with
    | nil => exact hbc
    | cons y ys =>
      cases c with
      | nil => simp [charsLt] at hbc
      | cons z zs => rfl
  | cons x xs ih =>
    intro b c hab hbc
    cases b with
    | nil => simp [charsLt] at hab
    | cons y ys =>
      cases c with
      | nil => simp [charsLt] at hbc
      | cons z zs =>
        simp only [charsLt] at hab hbc ⊢
        by_cases hxy : x < y
        · by_cases hyz : y < z
          · simp [lt_trans hxy hyz]
          · simp only [if_neg hyz] at hbc
            by_cases hyz2 : y = z
            · subst hyz2; simp [hxy]
            · simp [hyz2] at hbc
        · simp only [if_neg hxy] at hab
          by_cases hxy2 : x = y
          · subst hxy2
            simp only [if_pos rfl] at hab
            by_cases hxz : x < z
            · simp [hxz]
            · simp only [if_neg hxz] at hbc ⊢
              by_cases hxz2 : x = z
              · subst hxz2
                simp only [if_pos rfl] at hbc ⊢
                exact ih ys zs hab hbc
              · simp [hxz2] at hbc
          · simp [hxy2] at hab

theorem charsLt_irrefl : ∀ a : List Char, charsLt a a = false := by
  intro a
  induction a with
  | nil => rfl
  | cons x xs ih => simp [charsLt, ih]

theorem strLe_total : ∀ a b : String, strLe a b = true ∨ strLe b a = true := by
  intro a b
  rcases charsLt_connex a.data b.data with h | h | h
  · left; simp [strLe, h]
  · right; simp [strLe, h]
  · left; simp [strLe, h]

theorem strLe_trans : ∀ a b c : String,
    strLe a b = true → strLe b c = true → strLe a c = true := by
  intro a b c hab hbc
  simp only [strLe, Bool.or_eq_true, beq_iff_eq] at hab hbc ⊢
  rcases hab with hab | hab
  · rcases hbc with hbc | hbc
    · exact Or.inl (charsLt_trans _ _ _ hab hbc)
    · rw [hbc] at hab; exact Or.inl hab
  · rw [hab]; exact hbc

/-! ### Variables section (lines 53 to 59) -/

/-- Comparison used by `sorted(list_of_variables, key=itemgetter(key))`:
ordinal comparison of the `key` fields. -/
def varKeyLE (a b : Variable) : Prop := strLe a.key b.key = true

instance : DecidableRel varKeyLE := fun a b =>
  inferInstanceAs (Decidable (strLe a.key b.key = true))

instance : IsTotal Variable varKeyLE :=
  ⟨fun a b => strLe_total a.key b.key⟩

instance : IsTrans Variable varKeyLE :=
  ⟨fun _ _ _ hab hbc => strLe_trans _ _ _ hab hbc⟩

/-- Python `sorted` is a stable sort; `List.insertionSort` with a
reflexive total order has the same stable behaviour. -/
def sortVars (vars : List Variable) : List Variable :=
  List.insertionSort varKeyLE vars

/-- One table row per variable. The subscript `variable[value]` raises
`KeyError` when the field is absent, so a missing value aborts the whole
row loop; the loop is embedded as an `Option`-valued recursion that fails
at the first missing value, in iteration order. -/
def varRows : List Variable → Option (List String)
  | [] => some []
  | v :: rest =>
    match v.value with
    | none => none
    | some val => (varRows rest).map (fun rs =>
        ("| " ++ v.key ++ " | | " ++ val ++ " |\n") :: rs)

def variablesHeader : String :=
  "## Variables Used in this Collection\n\n" ++
  "| Name | Description | Example |\n" ++
  "| ---- | ----------- | ------- |\n"

/-- Embedding of `gen_variables_section`. -/
def gen_variables_section (vars : List Variable) : Option String :=
  (varRows (sortVars vars)).map (fun rows => variablesHeader ++ String.join rows)

/-! ### Request section (lines 62 to 143) -/

def headerRow (h : Header) : String :=
  "| " ++ h.key ++ " | " ++ escape_markup h.value ++ " | " ++
    h.description.getD " " ++ " |\n"

/-- Path-parameter rows: one row per path segment containing a
placeholder, with the placeholder rewritten to shorthand (lines 94 to
99). -/
def pathParamRows (url : Url) : List String :=
  match url.path with
  | none => []
  | some ps => ps.filterMap (fun p =>
      if hasSub p.data "\x7b\x7b".data then
        some ("| Path Parameter | " ++
          pyReplace (pyReplace p "\x7b\x7b" "$") "\x7d\x7d" "" ++ " | | |\n")
      else none)

/-- Query-parameter rows: one row per entry (lines 101 to 106). -/
def queryParamRows (url : Url) : List String :=
  match url.query with
  | none => []
  | some qs => qs.map (fun q =>
      "| Query String Parameter | " ++ q.key ++ " | " ++
        escape_markup q.value ++ " | " ++ q.description.getD " " ++ " |\n")

def paramTableHeader : String :=
  "#### Request Parameters\n\n" ++
  "| Parameter Type | Key | Value | Description |\n" ++
  "| -------------- | --- | ----- | ----------- |\n"

/-- Everything of the request section before the payload block: heading,
optional description, URL block, headers table, and the parameters table
when at least one parameter row exists (the Python flag is set exactly
when a path row was produced or the query loop ran at least once). -/
def requestMainPart (item : Item) : String :=
  let req := item.request
  "## **" ++ req.method ++ "** " ++ item.name ++ "\n\n" ++
  (match req.description with
   | some d => d ++ "\n\n"
   | none => "") ++
  "### Request\n\n" ++
  "#### Request URL\n\n" ++
  "```\n" ++ encode_full_url req.url.raw ++ "\n```\n\n" ++
  "#### Request Headers\n\n" ++
  "| Key | Value | Description |\n" ++
  "| --- | ----- | ----------- |\n" ++
  String.join (req.header.map headerRow) ++ "\n" ++
  (if pathParamRows req.url ≠ [] ∨ queryParamRows req.url ≠ [] then
    paramTableHeader ++ String.join (pathParamRows req.url) ++
      String.join (queryParamRows req.url) ++ "\n"
   else "")

/-- Embedding of the `try` block of lines 124 to 132: serialize the raw
body string, parse it back, serialize again, run `clean`, and on a
nonempty result run payload formatting; the empty-result case keeps the
initial `json` language with a literal empty object. `none` is the
`except` path: in the reachable cases the only raising step is `clean`.
The serialization fuel bounds only container depth; a `jstr` leaf needs
none, and the reparsed value has depth bounded by the text length. -/
def tryPayload (raw : String) : Option (String × String) :=
  let p := dumps 1 none (JVal.jstr (strToCodes raw))
  match loads p with
  | none => none
  | some v =>
    match clean (dumps (p.data.length + 1) none v) with
    | none => none
    | some x =>
      if x = "" then some ("json", "\x7b\x7d")
      else some (format_raw_data x)

/-- Payload block of the request section (lines 114 to 141): nothing for
GET; otherwise a fenced block whose language and content come from the
body pipeline, with the defaults of the source for an absent or null
body, an absent `raw` field, and the `except` fallback that emits the
raw text unchanged while the language keeps its initial `json` value. -/
def requestPayloadPart (req : Request) : String :=
  if req.method ≠ "GET" then
    let lp : String × String :=
      match req.body with
      | none => ("json", "\x7b\x7d")
      | some b =>
        match b.raw with
        | none => ("json", "\x7b\x7d")
        | some r =>
          match tryPayload r with
          | some v => v
          | none => ("json", r)
    "#### Request Payload\n\n" ++
      "```" ++ lp.1 ++ "\n" ++ lp.2 ++ "\n```\n\n"
  else ""

/-- Embedding of `gen_request_section`: the part before the payload
followed by the payload block (the deep copy through the JSON round-trip
at line 64 is the identity on the data model). -/
def gen_request_section (item : Item) : String :=
  requestMainPart item ++ requestPayloadPart item.request

/-! ### Response section (lines 146 to 179) -/

/-- Embedding of `gen_response_section`, returning the rendered section
and the side-channel log lines. Only the first response entry is
consulted. The diagnostic for a missing body keeps the source text; the
two `print(response[0])` diagnostics for a missing code or status are
abstracted to marker strings since only their presence matters. -/
def gen_response_section (item : Item) : String × List String :=
  let base := "### Response\n\n"
  match item.response with
  | [] => (base, [])
  | r :: _ =>
    let code : String := match r.code with
      | some c => toString c
      | none => "200"
    let log1 : List String := match r.code with
      | some _ => []
      | none => ["repr of first response (code field absent)"]
    let status : String := match r.status with
      | some st => st
      | none => "OK"
    let log2 : List String := match r.status with
      | some _ => []
      | none => ["repr of first response (status field absent)"]
    let bp : String × String × List String := match r.body with
      | some (some b) =>
        let f := format_raw_data b
        (f.1, f.2, [])
      | some none =>
        let f := format_raw_data "\x7b\x7d"
        (f.1, f.2, [])
      | none => ("json", " ", ["Warning - response body is missing"])
    (base ++ ("#### Status: " ++ code ++ " " ++ status ++ "\n\n") ++
       ("```" ++ bp.1 ++ "\n" ++ bp.2.1 ++ "\n```\n\n"),
     log1 ++ log2 ++ bp.2.2)

/-! ### Grouping, ordering and the artifact emitter (lines 182 to 222) -/

/-- Sort key relation of line 214: the pair (name, method) compared
lexicographically with case-sensitive ordinal string comparison on both
components. -/
def keyLE (a b : Item) : Prop :=
  strLt a.name b.name = true ∨
    (a.name = b.name ∧ strLe a.request.method b.request.method = true)

instance : DecidableRel keyLE := fun a b =>
  inferInstanceAs (Decidable
    (strLt a.name b.name = true ∨
      (a.name = b.name ∧ strLe a.request.method b.request.method = true)))

instance : IsTotal Item keyLE := by
  constructor
  intro a b
  rcases charsLt_connex a.name.data b.name.data with h | h | h
  · exact Or.inl (Or.inl h)
  · exact Or.inr (Or.inl h)
  · have hn : a.name = b.name := by
      apply String.ext
      exact h
    rcases strLe_total a.request.method b.request.method with h2 | h2
    · exact Or.inl (Or.inr ⟨hn, h2⟩)
    · exact Or.inr (Or.inr ⟨hn.symm, h2⟩)

instance : IsTrans Item keyLE := by
  constructor
  intro a b c hab hbc
  rcases hab with hab | ⟨hneq, hmle⟩
  · rcases hbc with hbc | ⟨hneq2, _⟩
    · exact Or.inl (charsLt_trans _ _ _ hab hbc)
    · exact Or.inl (by rw [← hneq2]; exact hab)
  · rcases hbc with hbc | ⟨hneq2, hmle2⟩
    · exact Or.inl (by rw [hneq]; exact hbc)
    · exact Or.inr ⟨hneq.trans hneq2, strLe_trans _ _ _ hmle hmle2⟩

/-- Python `sorted` with a key function is a stable sort; stable
insertion sort over the reflexive total order `keyLE` computes it. -/
def sortItems (items : List Item) : List Item :=
  List.insertionSort keyLE items

/-- Embedding of `itertools.groupby` keyed on the item name: maximal runs
of consecutive items with equal names, each tagged with the shared
name. -/
def groupByName : List Item → List (String × List Item)
  | [] => []
  | i :: rest =>
    match groupByName rest with
    | [] => [(i.name, [i])]
    | (n, g) :: gs =>
      if i.name = n then (n, i :: g) :: gs
      else (i.name, [i]) :: (n, g) :: gs

/-- The processing order of the main loop: sort, then group consecutive
items by name. -/
def processGroups (items : List Item) : List (String × List Item) :=
  groupByName (sortItems items)

/-- Artifact file name for a group name and a method (line 198). -/
def pathFile (name method : String) : String :=
  safeName name ++ "-" ++ method ++ ".md"

/-- Artifact path an item itself would map to. -/
def pathOf (it : Item) : String :=
  pathFile it.name it.request.method

/-- One rendered fragment per item (line 192). -/
def fragment (it : Item) : String :=
  gen_request_section it ++ (gen_response_section it).1 ++ "\n"

/-- The sequence of artifact writes performed by `gen_resource_section`
over all groups, in processing order: the nested loops become a join of
maps. The file name is derived from the group key and the item method. -/
def writesOf (gs : List (String × List Item)) : List (String × String) :=
  (gs.map (fun g => g.2.map (fun it => (pathFile g.1 it.request.method, fragment it)))).flatten

def runWrites (items : List Item) : List (String × String) :=
  writesOf (processGroups items)

/-- The fragments accumulated into the combined document, in processing
order. -/
def fragmentsOf (items : List Item) : List String :=
  ((processGroups items).map (fun g => g.2.map fragment)).flatten

/-- File-system effect of the write sequence: each write unconditionally
overwrites the artifact at its path; reading back a path returns the
content of the last write to it, if any. -/
def applyWrites (ws : List (String × String)) : String → Option String :=
  ws.foldl (fun fs w => fun q => if q = w.1 then some w.2 else fs q) (fun _ => none)

/-- The item whose write is the last one touching path `p`, scanning the
processing order left to right. -/
def lastWith (l : List Item) (p : String) : Option Item :=
  l.foldl (fun acc it => if p = pathOf it then some it else acc) none

/-- Content of the last write to `p` in a write list, scanning left to
right. -/
def chooseLast (ws : List (String × String)) (p : String) : Option String :=
  ws.foldl (fun acc w => if p = w.1 then some w.2 else acc) none

/-- A string is benign for `clean` when it has no backslash, no character
above U+00FF, and none of the substrings that the replacement steps of
`clean` rewrite. -/
def benignStr (s : String) : Bool :=
  s.data.all (fun c => c != bslash && decide (c.toNat ≤ 255))
    && !(hasSub s.data "\x7b\x7b".data)
    && !(hasSub s.data "\x7d\x7d".data)
    && !(hasSub s.data "\r\n".data)

/-! ### Example values used in concrete statements -/

def mkItem (n m : String) : Item :=
  ⟨n, ⟨m, ⟨"", none, none⟩, [], none, none⟩, []⟩

def exReq : Request := ⟨"POST", ⟨"", none, none⟩, [], none, some ⟨some "hello"⟩⟩

def exDup1 : Item := ⟨"N", ⟨"GET", ⟨"u1", none, none⟩, [], none, none⟩, []⟩

def exDup2 : Item := ⟨"N", ⟨"GET", ⟨"u2", none, none⟩, [], none, none⟩, []⟩

/-! ### Structural lemmas about grouping and the write sequence -/

theorem groupByName_flatten : ∀ l : List Item,
    ((groupByName l).map Prod.snd).flatten = l := by
  intro l
  induction l with
  | nil => rfl
  | cons i rest ih =>
    unfold groupByName
    cases hg : groupByName rest with
    | nil =>
      rw [hg] at ih
      simp at ih
      simp [← ih]
    | cons p gs =>
      obtain ⟨n, g⟩ := p
      rw [hg] at ih
      by_cases h : i.name = n
      · simp only [if_pos h, List.map_cons, List.flatten_cons]
        simp only [List.map_cons, List.flatten_cons] at ih
        simp [ih]
      · simp only [if_neg h, List.map_cons, List.flatten_cons]
        simp only [List.map_cons, List.flatten_cons] at ih
        simp [ih]

theorem groupByName_names : ∀ (l : List Item) (p : String × List Item),
    p ∈ groupByName l → ∀ it ∈ p.2, it.name = p.1 := by
  intro l
  induction l with
  | nil => intro p hp; simp [groupByName] at hp
  | cons i rest ih =>
    intro p hp it hit
    unfold groupByName at hp
    cases hg : groupByName rest with
    | nil =>
      rw [hg] at hp
      simp at hp
      subst hp
      simp at hit
      subst hit
      rfl
    | cons q gs =>
      obtain ⟨n, g⟩ := q
      rw [hg] at hp
      have hp2 : p ∈ (if i.name = n then ((n, i :: g) :: gs)
          else ((i.name, [i]) :: (n, g) :: gs)) := hp
      by_cases h : i.name = n
      · rw [if_pos h] at hp2
        rcases List.mem_cons.mp hp2 with hm | hm
        · subst hm
          rcases List.mem_cons.mp hit with hit2 | hit2
          · subst hit2; exact h
          · exact ih (n, g) (by rw [hg]; exact List.mem_cons_self _ _) it hit2
        · exact ih p (by rw [hg]; exact List.mem_cons_of_mem _ hm) it hit
      · rw [if_neg h] at hp2
        rcases List.mem_cons.mp hp2 with hm | hm
        · subst hm
          simp at hit
          subst hit
          rfl
        · exact ih p (by rw [hg]; exact hm) it hit

theorem writesOf_eq : ∀ gs : List (String × List Item),
    (∀ p ∈ gs, ∀ it ∈ p.2, it.name = p.1) →
    writesOf gs = ((gs.map Prod.snd).flatten).map (fun it => (pathOf it, fragment it)) := by
  intro gs
  induction gs with
  | nil => intro _; rfl
  | cons p rest ih =>
    intro h
    obtain ⟨n, g⟩ := p
    simp only [writesOf, List.map_cons, List.flatten_cons, List.map_append]
    have hg : ∀ it ∈ g, it.name = n := fun it hit =>
      h (n, g) (List.mem_cons_self _ _) it hit
    have h1 : g.map (fun it => (pathFile n it.request.method, fragment it))
        = g.map (fun it => (pathOf it, fragment it)) := by
      apply List.map_congr_left
      intro it hit
      rw [pathOf, ← hg it hit]
    rw [h1]
    have h2 := ih (fun q hq it hit => h q (List.mem_cons_of_mem _ hq) it hit)
    simp only [writesOf] at h2
    rw [h2]

theorem runWrites_eq (items : List Item) :
    runWrites items = (sortItems items).map (fun it => (pathOf it, fragment it)) := by
  rw [runWrites, writesOf_eq (processGroups items) (groupByName_names (sortItems items))]
  rw [processGroups, groupByName_flatten]

theorem fragmentsOf_eq (items : List Item) :
    fragmentsOf items = (sortItems items).map fragment := by
  rw [fragmentsOf]
  have h : ((processGroups items).map (fun g => g.2.map fragment))
      = (((processGroups items).map Prod.snd).map (List.map fragment)) := by
    simp [List.map_map]
  rw [h, ← List.map_flatten, processGroups, groupByName_flatten]

theorem fragmentsOf_length (items : List Item) :
    (fragmentsOf items).length = items.length := by
  rw [fragmentsOf_eq, List.length_map, sortItems, List.length_insertionSort]

/-! ### Last-write-wins file-system lemmas -/

theorem foldl_pick_acc : ∀ (ws : List (String × String)) (p : String) (a : Option String),
    ws.foldl (fun acc w => if p = w.1 then some w.2 else acc) a
      = match chooseLast ws p with
        | some v => some v
        | none => a := by
  intro ws
  induction ws with
  | nil => intro p a; rfl
  | cons w rest ih =>
    intro p a
    simp only [chooseLast, List.foldl_cons]
    rw [ih p (if p = w.1 then some w.2 else a), ih p (if p = w.1 then some w.2 else none)]
    cases h : rest.foldl (fun acc w => if p = w.1 then some w.2 else acc) (none : Option String) with
    | some v => simp [chooseLast, h]
    | none =>
      simp only [chooseLast, h]
      by_cases hw : p = w.1 <;> simp [hw]

theorem applyWrites_eq_chooseLast : ∀ (ws : List (String × String)) (p : String),
    applyWrites ws p = chooseLast ws p := by
  have aux : ∀ (ws : List (String × String)) (fs : String → Option String) (p : String),
      (ws.foldl (fun fs w => fun q => if q = w.1 then some w.2 else fs q) fs) p
        = match chooseLast ws p with
          | some v => some v
          | none => fs p := by
    intro ws
    induction ws with
    | nil => intro fs p; rfl
    | cons w rest ih =>
      intro fs p
      simp only [chooseLast, List.foldl_cons]
      rw [ih, foldl_pick_acc]
      cases h : chooseLast rest p with
      | some v => simp [h]
      | none =>
        simp only [h]
        by_cases hw : p = w.1 <;> simp [hw]
  intro ws p
  rw [applyWrites, aux]
  cases h : chooseLast ws p with
  | some v => simp
  | none => simp

theorem chooseLast_map_fragment : ∀ (l : List Item) (p : String) (a : Option Item),
    (l.map (fun it => (pathOf it, fragment it))).foldl
        (fun acc w => if p = w.1 then some w.2 else acc) (a.map fragment)
      = (l.foldl (fun acc it => if p = pathOf it then some it else acc) a).map fragment := by
  intro l
  induction l with
  | nil => intro p a; rfl
  | cons it rest ih =>
    intro p a
    simp only [List.map_cons, List.foldl_cons]
    by_cases h : p = pathOf it
    · rw [if_pos h, if_pos h]
      exact ih p (some it)
    · rw [if_neg h, if_neg h]
      exact ih p a

theorem final_content (items : List Item) (p : String) :
    applyWrites (runWrites items) p = (lastWith (sortItems items) p).map fragment := by
  rw [applyWrites_eq_chooseLast, runWrites_eq, chooseLast, lastWith]
  have h := chooseLast_map_fragment (sortItems items) p none
  simpa using h

end Pm2Md

namespace Pm2Md

/-! ### Identity lemmas used for the benign-input behaviour of clean -/

theorem decodeEscFuel_id : ∀ (s : List Char), (∀ c ∈ s, c ≠ bslash) →
    ∀ fuel : Nat, s.length ≤ fuel → decodeEscFuel fuel s = some s := by
  intro s
  induction s with
  | nil =>
    intro _ fuel _
    cases fuel <;> rfl
  | cons c rest ih =>
    intro h fuel hf
    cases fuel with
    | zero => simp at hf
    | succ f =>
      have hc : c ≠ bslash := h c (List.mem_cons_self _ _)
      simp only [decodeEscFuel, if_pos hc]
      rw [ih (fun x hx => h x (List.mem_cons_of_mem _ hx)) f (Nat.succ_le_succ_iff.mp hf)]
      rfl

theorem pyUnicodeEscape_id (s : List Char) (h : ∀ c ∈ s, c ≠ bslash) :
    pyUnicodeEscape s = some s :=
  decodeEscFuel_id s h s.length le_rfl

theorem replaceFuel_id : ∀ (s pat repl : List Char), hasSub s pat = false →
    ∀ fuel : Nat, replaceFuel pat repl fuel s = s := by
  intro s
  induction s with
  | nil =>
    intro pat repl _ fuel
    cases fuel <;> rfl
  | cons c rest ih =>
    intro pat repl h fuel
    simp only [hasSub, Bool.or_eq_false_iff] at h
    cases fuel with
    | zero => rfl
    | succ f =>
      have hnp : ¬(pat ≠ [] ∧ pat.isPrefixOf (c :: rest)) := by
        intro hcon
        rw [h.1] at hcon
        exact Bool.false_ne_true hcon.2
      simp only [replaceFuel, if_neg hnp]
      rw [ih pat repl h.2 f]

theorem pyReplace_id (s pat repl : String) (h : hasSub s.data pat.data = false) :
    pyReplace s pat repl = s := by
  rw [pyReplace]
  by_cases he : pat.data.isEmpty
  · rw [if_pos he]
  · rw [if_neg he, replaceFuel_id s.data pat.data repl.data h]

/-! ### Variables-section failure lemma -/

theorem varRows_none : ∀ l : List Variable, (∃ v ∈ l, v.value = none) →
    varRows l = none := by
  intro l
  induction l with
  | nil => intro h; simp at h
  | cons v rest ih =>
    intro h
    cases hv : v.value with
    | none => simp [varRows, hv]
    | some val =>
      rcases h with ⟨w, hw, hwv⟩
      rcases List.mem_cons.mp hw with hw2 | hw2
      · subst hw2; rw [hv] at hwv; exact absurd hwv (by simp)
      · simp only [varRows, hv]
        rw [ih ⟨w, hw2, hwv⟩]
        rfl

/-! ### Claims -/

/-- C1: the rendering order sorts all items by the pair (name, method)
with case-sensitive ordinal comparison and then groups consecutive items
by name only: the groups partition the sorted list in order, the sorted
list is really sorted by the pair relation, every group member carries
the group name, and for names [B, A, A] with methods [GET, POST, GET] the
groups are A(GET, POST) then B(GET). -/
theorem sort_then_group_spec :
    (∀ l : List Item, ((processGroups l).map Prod.snd).flatten = sortItems l)
  ∧ (∀ l : List Item, List.Sorted keyLE (sortItems l))
  ∧ (∀ (l : List Item) (p : String × List Item),
       p ∈ processGroups l → ∀ it ∈ p.2, it.name = p.1)
  ∧ ((processGroups [mkItem "B" "GET", mkItem "A" "POST", mkItem "A" "GET"]).map
       (fun g => (g.1, g.2.map (fun it => it.request.method)))
       = [("A", ["GET", "POST"]), ("B", ["GET"])]) := by
  refine ⟨fun l => groupByName_flatten (sortItems l), fun l => ?_,
    fun l p hp => groupByName_names (sortItems l) p hp, by decide⟩
  exact List.sorted_insertionSort keyLE l

/-- C1 witness: instantiation of the group-name part at a one-item
collection. -/
theorem sort_then_group_spec_witness :
    (("A", [mkItem "A" "GET"]) ∈ processGroups [mkItem "A" "GET"])
  ∧ (mkItem "A" "GET").name = "A" :=
  ⟨by decide,
   sort_then_group_spec.2.2.1 [mkItem "A" "GET"] ("A", [mkItem "A" "GET"])
     (by decide) (mkItem "A" "GET") (by decide)⟩

/-- C2: format_raw_data returns the json tag with a two-space-indented
re-serialization when the input parses as JSON (floats included, with
shortest-round-trip repr, and the NaN and Infinity extensions) and the
xml tag with the unchanged input otherwise; in particular on the two
listed inputs, and on a float, a NaN and a scientific-notation float. -/
theorem format_raw_data_spec :
    format_raw_data "\x7b\"a\":1\x7d" = ("json", "\x7b\n  \"a\": 1\n\x7d")
  ∧ format_raw_data "not json" = ("xml", "not json")
  ∧ format_raw_data "1.5" = ("json", "1.5")
  ∧ format_raw_data "NaN" = ("json", "NaN")
  ∧ format_raw_data "1e16" = ("json", "1e+16")
  ∧ (∀ s : String, format_raw_data s =
      match loads s with
      | some v => ("json", dumps (s.data.length + 1) (some 2) v)
      | none => ("xml", s)) :=
  ⟨by decide, by decide, by decide, by decide, by decide, fun _ => rfl⟩

/-- C3: encode_full_url on the listed input collapses whitespace,
rewrites the placeholder braces and percent-encodes, yielding a result
with no raw space, no double braces, and a literal %20 for the space. -/
theorem encode_full_url_spec :
    encode_full_url "\x7b\x7bbase\x7d\x7d/a b" = "$base/a%20b"
  ∧ hasSub (encode_full_url "\x7b\x7bbase\x7d\x7d/a b").data [' '] = false
  ∧ hasSub (encode_full_url "\x7b\x7bbase\x7d\x7d/a b").data "\x7b\x7b".data = false
  ∧ hasSub (encode_full_url "\x7b\x7bbase\x7d\x7d/a b").data "\x7d\x7d".data = false
  ∧ hasSub (encode_full_url "\x7b\x7bbase\x7d\x7d/a b").data "%20".data = true := by
  decide

/-- C4 counterexample: the sanitized base of the resource name A/B:C*D is
AB-C-D (slash deleted, colon and asterisk each replaced by a dash), not
the ABC-D stated by the claim. -/
theorem safeName_example_cex :
    safeName "A/B:C*D" = "AB-C-D" ∧ "AB-C-D" ≠ "ABC-D" := by decide

/-- C4 amended: the sanitized base of A/B:C*D is AB-C-D. -/
theorem safeName_example_amended :
    safeName "A/B:C*D" = "AB-C-D" := by decide

/-- C5 counterexample: a variable whose value field is absent makes the
variables-section generator fail with a key lookup error instead of
rendering a row with a blank Example cell. -/
theorem variables_missing_value_cex :
    gen_variables_section [⟨"k", none⟩] = none := by decide

/-- C5 amended: a variable with an absent value aborts the variables
section (the row loop raises at the first such variable); when every
value is present the rows are rendered in ascending case-sensitive
ordinal order of the keys, with a blank Description column. -/
theorem variables_missing_value_amended :
    (∀ vars : List Variable, (∃ v ∈ vars, v.value = none) →
       gen_variables_section vars = none)
  ∧ (∀ vars : List Variable, List.Sorted varKeyLE (sortVars vars))
  ∧ gen_variables_section [⟨"b", some "2"⟩, ⟨"a", some "1"⟩]
      = some (variablesHeader ++ "| a | | 1 |\n| b | | 2 |\n") := by
  refine ⟨fun vars h => ?_, fun vars => List.sorted_insertionSort varKeyLE vars, by decide⟩
  rcases h with ⟨v, hv, hval⟩
  have hmem : v ∈ sortVars vars := by
    rw [sortVars, List.mem_insertionSort]
    exact hv
  rw [gen_variables_section, varRows_none (sortVars vars) ⟨v, hmem, hval⟩]
  rfl

/-- C5 witness: instantiation of the absent-value part at a concrete
one-variable list. -/
theorem variables_missing_value_amended_witness :
    (∃ v ∈ [(⟨"k", none⟩ : Variable)], v.value = none)
  ∧ gen_variables_section [(⟨"k", none⟩ : Variable)] = none :=
  ⟨by decide, variables_missing_value_amended.1 [⟨"k", none⟩] (by decide)⟩

/-- C6 counterexample: clean is not the identity modulo quote stripping
on strings free of placeholders and backslash escapes, and it is not
idempotent on them: a literal CR-LF pair is deleted, and a doubly quoted
string loses one quote pair per application. -/
theorem clean_benign_cex :
    clean "a\r\nb" = some "ab" ∧ ("ab" : String) ≠ "a\r\nb"
  ∧ clean "\"\"a\"\"" = some "\"a\""
  ∧ clean "\"a\"" = some "a"
  ∧ ("\"a\"" : String) ≠ "a" := by decide

/-- C6 amended: on strings with no backslash, no character above U+00FF,
no double-brace pair and no CR-LF pair, clean returns the string with
exactly one enclosing pair of double quotes stripped when the string both
starts and ends with a double quote, and unchanged otherwise; one pair is
stripped per application, so idempotence holds only up to that
stripping. -/
theorem clean_benign_amended (s : String) (h : benignStr s = true) :
    clean s = some (pyStripQuotes s) := by
  simp only [benignStr, Bool.and_eq_true, Bool.not_eq_true'] at h
  obtain ⟨⟨⟨hall, hlb⟩, hrb⟩, hcr⟩ := h
  have hprops : ∀ c ∈ s.data, c ≠ bslash ∧ c.toNat ≤ 255 := by
    intro c hc
    have h2 := List.all_eq_true.mp hall c hc
    simpa using h2
  have h255 : (s.data.all fun c => decide (c.toNat ≤ 255)) = true := by
    rw [List.all_eq_true]
    intro c hc
    simpa using (hprops c hc).2
  have hnb : ∀ c ∈ s.data, c ≠ bslash := fun c hc => (hprops c hc).1
  rw [clean, if_pos h255, pyUnicodeEscape_id s.data hnb]
  show some (pyStripQuotes
      (pyReplace (pyReplace (pyReplace s "\x7b\x7b" "$") "\x7d\x7d" "") "\r\n" ""))
    = some (pyStripQuotes s)
  rw [pyReplace_id s "\x7b\x7b" "$" (by simpa using hlb)]
  rw [pyReplace_id s "\x7d\x7d" "" (by simpa using hrb)]
  rw [pyReplace_id s "\r\n" "" (by simpa using hcr)]

/-- C6 witness: instantiation at a concrete benign string. -/
theorem clean_benign_amended_witness :
    benignStr "abc" = true ∧ clean "abc" = some "abc" :=
  ⟨by decide, clean_benign_amended "abc" (by decide)⟩

/-- C7: the response section renders only the first response entry, with
code defaulting to 200 and status to OK, a fenced block holding the
formatted body (a literal empty object for a present-but-null body, a
single space for an entirely missing body field, with a warning on the
side channel); an empty response list yields only the header text. -/
theorem response_section_spec :
    (∀ it : Item, it.response = [] →
       (gen_response_section it).1 = "### Response\n\n")
  ∧ (∀ (it : Item) (r : Response) (rest : List Response), it.response = r :: rest →
       (gen_response_section it).1 =
         "### Response\n\n"
           ++ ("#### Status: " ++ ((r.code.map toString).getD "200") ++ " "
                ++ (r.status.getD "OK") ++ "\n\n")
           ++ (match r.body with
               | none => "```" ++ "json" ++ "\n" ++ " " ++ "\n```\n\n"
               | some none => "```" ++ "json" ++ "\n" ++ "\x7b\x7d" ++ "\n```\n\n"
               | some (some b) =>
                 "```" ++ (format_raw_data b).1 ++ "\n" ++ (format_raw_data b).2
                   ++ "\n```\n\n"))
  ∧ (∀ (it : Item) (r : Response) (rest : List Response), it.response = r :: rest →
       r.body = none →
       "Warning - response body is missing" ∈ (gen_response_section it).2) := by
  have hfd : format_raw_data "\x7b\x7d" = ("json", "\x7b\x7d") := by decide
  refine ⟨fun it h => ?_, fun it r rest h => ?_, fun it r rest h hb => ?_⟩
  · simp [gen_response_section, h]
  · simp only [gen_response_section, h]
    rcases r with ⟨code, status, body⟩
    cases code <;> cases status <;> rcases body with _ | (_ | b) <;>
      simp [hfd]
  · simp only [gen_response_section, h, hb]
    rcases r with ⟨code, status, body⟩
    simp only at hb
    subst hb
    cases code <;> cases status <;> simp

/-- C7 witness: instantiation of the empty-response-list part. -/
theorem response_section_spec_witness :
    (mkItem "N" "GET").response = []
  ∧ (gen_response_section (mkItem "N" "GET")).1 = "### Response\n\n" :=
  ⟨rfl, response_section_spec.1 (mkItem "N" "GET") rfl⟩

/-- C8: for a non-GET request carrying a raw body, the payload block is a
fenced block whose language and content come from the payload pipeline
when it succeeds and are the unchanged json tag with the raw text
verbatim when any pipeline step fails, so a payload failure never escapes
the item; moreover every item of a run contributes exactly one rendered
fragment. -/
theorem payload_fallback_spec :
    (∀ (req : Request) (b : Body) (r : String),
        req.method ≠ "GET" → req.body = some b → b.raw = some r →
        requestPayloadPart req =
          "#### Request Payload\n\n```" ++ ((tryPayload r).getD ("json", r)).1 ++ "\n"
            ++ ((tryPayload r).getD ("json", r)).2 ++ "\n```\n\n")
  ∧ (∀ items : List Item, (fragmentsOf items).length = items.length) := by
  refine ⟨fun req b r hm hb hr => ?_, fragmentsOf_length⟩
  simp only [requestPayloadPart, if_pos hm, hb, hr]
  cases h : tryPayload r <;> simp [h]

/-- C8 witness: instantiation at a concrete POST request with a raw
body. -/
theorem payload_fallback_spec_witness :
    exReq.method ≠ "GET" ∧ exReq.body = some ⟨some "hello"⟩
  ∧ requestPayloadPart exReq =
      "#### Request Payload\n\n```" ++ ((tryPayload "hello").getD ("json", "hello")).1
        ++ "\n" ++ ((tryPayload "hello").getD ("json", "hello")).2 ++ "\n```\n\n" :=
  ⟨by decide, rfl,
   payload_fallback_spec.1 exReq ⟨some "hello"⟩ "hello" (by decide) rfl rfl⟩

/-- C9: clean is partial on arbitrary Unicode strings: its first step
encodes the input as latin-1, so a string containing a character above
U+00FF (here U+0100) makes clean raise instead of returning a value. -/
theorem clean_latin1_partial :
    ('Ā'.toNat = 256) ∧ clean "Ā" = none := by decide

/-- C10: two items of one run with equal name and equal method map to
the same artifact path, both fragments are written there, and the final
content of that path is the fragment of the item that the last write in
the sorted processing order came from, the earlier write being silently
overwritten. -/
theorem duplicate_item_overwrite :
    ∀ (items : List Item) (a b c : Item),
      a ∈ items → b ∈ items → a.name = b.name →
      a.request.method = b.request.method →
      lastWith (sortItems items) (pathOf a) = some c →
      pathOf a = pathOf b
      ∧ (pathOf a, fragment a) ∈ runWrites items
      ∧ (pathOf b, fragment b) ∈ runWrites items
      ∧ applyWrites (runWrites items) (pathOf a) = some (fragment c) := by
  intro items a b c ha hb hn hm hlast
  refine ⟨by simp [pathOf, pathFile, hn, hm], ?_, ?_, ?_⟩
  · rw [runWrites_eq]
    exact List.mem_map_of_mem _ ((List.mem_insertionSort keyLE).mpr ha)
  · rw [runWrites_eq]
    exact List.mem_map_of_mem _ ((List.mem_insertionSort keyLE).mpr hb)
  · rw [final_content, hlast]
    rfl

/-- C10 witness: two items with the same name and method, written in one
run; the artifact holds the later fragment. -/
theorem duplicate_item_overwrite_witness :
    exDup1 ∈ [exDup1, exDup2] ∧ exDup1.name = exDup2.name
  ∧ lastWith (sortItems [exDup1, exDup2]) (pathOf exDup1) = some exDup2
  ∧ applyWrites (runWrites [exDup1, exDup2]) (pathOf exDup1)
      = some (fragment exDup2) :=
  ⟨by decide, rfl, by decide,
   (duplicate_item_overwrite [exDup1, exDup2] exDup1 exDup2 exDup2
      (by decide) (by decide) rfl rfl (by decide)).2.2.2⟩

end Pm2Md
